import Mathlib

/-!
Verification of the embedding-index lifecycle and similarity-search engine of
src/server/ai-service.py (class AIImageService), shallowly embedded in Lean.

Modelling conventions:
- float32 vector components, similarity scores and the 0.1 threshold are
  modelled as exact rationals;
- the external collaborators (CLIP image embedding, CLIP text encoder) are
  modelled by their outcome, an Except value: ok carries the produced vector,
  error the exception message that extract_clip_embedding / encode_text_query
  re-raise;
- the OCR collaborator extract_ocr_text never raises (it returns an empty
  string on failure), so it is modelled by the string it returns;
- the two persisted artifacts (image_index.faiss, image_metadata.pkl) are
  modelled by an optional value each: none stands for a file that is missing
  or whose read raises, which the code treats identically (fresh store).
-/

namespace AIImageService

/-- A stored vector (the Python code holds float32 rows; components are
modelled as exact rationals). -/
abbrev Vec := List ℚ

/-- Inner product, the score IndexFlatIP assigns a stored vector. -/
def dotProd (q v : Vec) : ℚ := (List.zipWith (fun a b => a * b) q v).sum

/-- In-memory state of AIImageService: the IndexFlatIP contents (self.index,
stored vectors in insertion order) and the parallel identifier list
(self.image_paths). -/
structure ServiceState where
  index : List Vec
  image_paths : List String
deriving DecidableEq, Repr

/-- The pair of persisted artifacts. none models a file that is missing or
fails to parse; both cases send load_index to the fresh-store branch. -/
structure Disk where
  index_file : Option (List Vec)
  metadata_file : Option (List String)
deriving DecidableEq, Repr

/-- AIImageService.load_index: when both artifacts exist and parse, the state
is taken from them exactly as read (the code compares no lengths); otherwise
(missing file, or an exception while reading) a fresh empty IndexFlatIP(512)
with an empty path list. -/
def load_index (d : Disk) : ServiceState :=
  match d.index_file, d.metadata_file with
  | some vecs, some paths => ⟨vecs, paths⟩
  | some _, none => ⟨[], []⟩
  | none, some _ => ⟨[], []⟩
  | none, none => ⟨[], []⟩

/-- AIImageService.save_index: writes both artifacts from the current state
(faiss.write_index, then pickle.dump of image_paths), overwriting the disk. -/
def save_index (st : ServiceState) (_d : Disk) : Disk :=
  ⟨some st.index, some st.image_paths⟩

/-- The structured result dictionary returned by process_image. -/
structure IngestOutcome where
  filepath : String
  embedding : Option Vec
  ocr_text : Option String
  error : Option String
  success : Bool
deriving DecidableEq, Repr

/-- AIImageService.process_image. embed is the outcome of
extract_clip_embedding (which re-raises collaborator failures), ocr the
string extract_ocr_text returns. A raised embedding failure lands in the
except-branch: success=false with the message, and neither store nor disk is
touched. On success the vector and the path are appended and save_index runs;
ocr_text is None when the extracted text is empty. -/
def process_image (st : ServiceState) (d : Disk)
    (embed : Except String Vec) (ocr : String) (path : String) :
    IngestOutcome × ServiceState × Disk :=
  match embed with
  | Except.error e => (⟨path, none, none, some e, false⟩, st, d)
  | Except.ok v =>
    let st2 : ServiceState := ⟨st.index ++ [v], st.image_paths ++ [path]⟩
    (⟨path, some v, if ocr = "" then none else some ocr, none, true⟩,
      st2, save_index st2 d)

/-- Ranking order on (score, slot) rows: higher score first, ties by lower
slot index. -/
def rankLE (a b : ℚ × ℕ) : Prop := b.1 < a.1 ∨ (a.1 = b.1 ∧ a.2 ≤ b.2)

instance : DecidableRel rankLE := fun a b => by unfold rankLE; infer_instance

instance : IsTotal (ℚ × ℕ) rankLE where
  total a b := by
    rcases lt_trichotomy a.1 b.1 with h | h | h
    · exact Or.inr (Or.inl h)
    · rcases Nat.le_total a.2 b.2 with h2 | h2
      · exact Or.inl (Or.inr ⟨h, h2⟩)
      · exact Or.inr (Or.inr ⟨h.symm, h2⟩)
    · exact Or.inl (Or.inl h)

instance : IsTrans (ℚ × ℕ) rankLE where
  trans a b c hab hbc := by
    rcases hab with h1 | ⟨e1, l1⟩ <;> rcases hbc with h2 | ⟨e2, l2⟩
    · exact Or.inl (h2.trans h1)
    · exact Or.inl (e2 ▸ h1)
    · exact Or.inl (e1 ▸ h2)
    · exact Or.inr ⟨e1.trans e2, l1.trans l2⟩

/-- Strict ranking order: strictly higher score, or equal score and strictly
smaller slot index (first-inserted wins). -/
def rankLT (a b : ℚ × ℕ) : Prop := b.1 < a.1 ∨ (a.1 = b.1 ∧ a.2 < b.2)

/-- Modelled from the spec: FAISS IndexFlatIP is not part of this repository;
per the spec the store scores every stored vector by its inner product with
the query. scoredSlots lists each slot with its score. -/
def scoredSlots (vecs : List Vec) (q : Vec) : List (ℚ × ℕ) :=
  (List.range vecs.length).map (fun i => (dotProd q (vecs.getD i []), i))

/-- Modelled from the spec: IndexFlatIP.search for one query returns the top
k (score, slot) rows by descending score, ties broken by ascending slot
index. -/
def idx_search (vecs : List Vec) (q : Vec) (k : ℕ) : List (ℚ × ℕ) :=
  (List.insertionSort rankLE (scoredSlots vecs q)).take k

/-- One result dictionary produced by search_images. -/
structure SearchResult where
  filepath : String
  similarity : ℚ
  rank : ℕ
deriving DecidableEq, Repr

/-- The result-building loop of search_images: enumerate over the raw
(similarity, idx) rows with counter i, keep a row only under the guard
idx < len(image_paths), and stamp it with rank i + 1. -/
def buildResults (paths : List String) : ℕ → List (ℚ × ℕ) → List SearchResult
  | _, [] => []
  | i, p :: rest =>
    if h : p.2 < paths.length then
      ⟨paths.get ⟨p.2, h⟩, p.1, i + 1⟩ :: buildResults paths (i + 1) rest
    else buildResults paths (i + 1) rest

/-- The fixed similarity floor of search_images. -/
def simFloor : ℚ := 1 / 10

/-- AIImageService.search_images. enc is the outcome of encode_text_query
(which re-raises CLIP failures); the try/except wrapping the whole body of
search_images turns any raised failure into an empty result list. On the
normal path the index is searched with k = min(top_k, ntotal), the rows are
built with ranks, and rows with similarity not above 0.1 are filtered out. -/
def search_images (st : ServiceState) (enc : Except String Vec) (top_k : ℕ) :
    List SearchResult :=
  if st.index.length = 0 then []
  else
    match enc with
    | Except.error _ => []
    | Except.ok q =>
      let out := idx_search st.index q (min top_k st.index.length)
      (buildResults st.image_paths 0 out).filter (fun r => simFloor < r.similarity)

/-- The raw (score, slot) rows the index search yields inside search_images. -/
def searchRows (st : ServiceState) (q : Vec) (top_k : ℕ) : List (ℚ × ℕ) :=
  idx_search st.index q (min top_k st.index.length)

/-- The pre-filter result rows of search_images (ranks already stamped). -/
def preFilter (st : ServiceState) (q : Vec) (top_k : ℕ) : List SearchResult :=
  buildResults st.image_paths 0 (searchRows st q top_k)

/-- One ingest call: the two collaborator outcomes and the input path. -/
structure IngestOp where
  embed : Except String Vec
  ocr : String
  path : String

/-- Run a sequence of process_image calls, threading state and disk. -/
def runOps (ops : List IngestOp) (sd : ServiceState × Disk) : ServiceState × Disk :=
  match ops with
  | [] => sd
  | op :: rest =>
    let r := process_image sd.1 sd.2 op.embed op.ocr op.path
    runOps rest (r.2.1, r.2.2)

/-- The (vector, identifier) pairs of the successful ingest calls, in call
order. -/
def succPairs (ops : List IngestOp) : List (Vec × String) :=
  ops.filterMap (fun op =>
    match op.embed with
    | Except.ok v => some (v, op.path)
    | Except.error _ => none)

/-- Every row of the modelled index search is a genuine slot of the store,
scored by the inner product of the query with the vector in that slot. -/
theorem mem_idx_search {vecs : List Vec} {q : Vec} {k : ℕ} {p : ℚ × ℕ}
    (hp : p ∈ idx_search vecs q k) :
    p.2 < vecs.length ∧ p.1 = dotProd q (vecs.getD p.2 []) := by
  have h1 : p ∈ List.insertionSort rankLE (scoredSlots vecs q) :=
    (List.take_sublist k (List.insertionSort rankLE (scoredSlots vecs q))).subset hp
  have h2 : p ∈ scoredSlots vecs q := (List.mem_insertionSort rankLE).mp h1
  obtain ⟨i, hi, hfi⟩ := List.mem_map.mp h2
  subst hfi
  exact ⟨List.mem_range.mp hi, rfl⟩

/-- The modelled index search returns exactly min(k, n) rows. -/
theorem idx_search_length (vecs : List Vec) (q : Vec) (k : ℕ) :
    (idx_search vecs q k).length = min k vecs.length := by
  simp [idx_search, scoredSlots]

/-- The rows of the modelled index search are sorted by the ranking order. -/
theorem idx_search_sorted (vecs : List Vec) (q : Vec) (k : ℕ) :
    List.Pairwise rankLE (idx_search vecs q k) :=
  List.Pairwise.sublist (List.take_sublist k _)
    (List.sorted_insertionSort rankLE (scoredSlots vecs q))

/-- The slots of the rows of the modelled index search are pairwise
distinct. -/
theorem idx_search_slots_nodup (vecs : List Vec) (q : Vec) (k : ℕ) :
    ((idx_search vecs q k).map Prod.snd).Nodup := by
  have hperm : (List.insertionSort rankLE (scoredSlots vecs q)).Perm
      (scoredSlots vecs q) := List.perm_insertionSort rankLE _
  have hmap : (scoredSlots vecs q).map Prod.snd = List.range vecs.length := by
    simp [scoredSlots, List.map_map, Function.comp_def]
  have hnodup : ((List.insertionSort rankLE (scoredSlots vecs q)).map
      Prod.snd).Nodup :=
    (hperm.map Prod.snd).nodup_iff.mpr (hmap ▸ List.nodup_range vecs.length)
  have hsub : List.Sublist ((idx_search vecs q k).map Prod.snd)
      ((List.insertionSort rankLE (scoredSlots vecs q)).map Prod.snd) := by
    rw [idx_search, List.map_take]
    exact List.take_sublist _ _
  exact hnodup.sublist hsub

/-- The rows of the modelled index search are ordered by strictly descending
score, ties by strictly ascending slot. -/
theorem idx_search_sorted_strict (vecs : List Vec) (q : Vec) (k : ℕ) :
    List.Pairwise rankLT (idx_search vecs q k) := by
  have h1 := idx_search_sorted vecs q k
  have h2 : List.Pairwise (fun a b : ℚ × ℕ => a.2 ≠ b.2) (idx_search vecs q k) :=
    List.pairwise_map.mp (idx_search_slots_nodup vecs q k)
  refine (h1.and h2).imp ?_
  rintro a b ⟨hle, hne⟩
  rcases hle with h | ⟨he, hl⟩
  · exact Or.inl h
  · exact Or.inr ⟨he, lt_of_le_of_ne hl hne⟩

/-- Top-k completeness of the modelled index search: every slot left out of
the result ranks no better than any returned row. -/
theorem idx_search_topk (vecs : List Vec) (q : Vec) (k : ℕ)
    (j : ℕ) (hj : j < vecs.length)
    (hnot : ∀ p ∈ idx_search vecs q k, p.2 ≠ j) :
    ∀ p ∈ idx_search vecs q k, rankLE p (dotProd q (vecs.getD j []), j) := by
  intro p hp
  have hrow : (dotProd q (vecs.getD j []), j) ∈
      List.insertionSort rankLE (scoredSlots vecs q) :=
    (List.mem_insertionSort rankLE).mpr
      (List.mem_map.mpr ⟨j, List.mem_range.mpr hj, rfl⟩)
  have hsplit := List.take_append_drop k
    (List.insertionSort rankLE (scoredSlots vecs q))
  have hpw := List.sorted_insertionSort rankLE (scoredSlots vecs q)
  rw [← hsplit] at hpw hrow
  have h3 := (List.pairwise_append.mp hpw).2.2
  rcases List.mem_append.mp hrow with h | h
  · exact absurd rfl (hnot _ h)
  · exact h3 p hp _ h

/-- On a non-empty store, search_images with a successful encoder outcome is
the similarity filter applied to the ranked pre-filter rows. -/
theorem search_images_ok_eq (st : ServiceState) (q : Vec) (top_k : ℕ)
    (hn : st.index.length ≠ 0) :
    search_images st (Except.ok q) top_k =
      (preFilter st q top_k).filter (fun r => simFloor < r.similarity) := by
  simp only [search_images, if_neg hn, preFilter, searchRows]

/-- Characterization of the rows built by the result loop: each comes from a
position j of the raw rows, passes the guard, carries rank i0 + j + 1, the
score at that position, and the identifier at that row's slot. -/
theorem mem_buildResults {paths : List String} :
    ∀ {out : List (ℚ × ℕ)} {i0 : ℕ} {r : SearchResult},
      r ∈ buildResults paths i0 out →
      ∃ j, ∃ hj : j < out.length, ∃ hp : (out.get ⟨j, hj⟩).2 < paths.length,
        r = ⟨paths.get ⟨(out.get ⟨j, hj⟩).2, hp⟩, (out.get ⟨j, hj⟩).1, i0 + j + 1⟩
  | [], i0, r => by intro h; simp [buildResults] at h
  | p :: rest, i0, r => by
    intro h
    rw [buildResults] at h
    by_cases hp : p.2 < paths.length
    · rw [dif_pos hp] at h
      rcases List.mem_cons.mp h with h | h
      · exact ⟨0, Nat.succ_pos _, hp, by simpa using h⟩
      · obtain ⟨j, hj, hpp, hr⟩ := mem_buildResults h
        refine ⟨j + 1, Nat.succ_lt_succ hj, hpp, ?_⟩
        rw [hr]
        simp only [SearchResult.mk.injEq]
        exact ⟨rfl, rfl, by omega⟩
    · rw [dif_neg hp] at h
      obtain ⟨j, hj, hpp, hr⟩ := mem_buildResults h
      refine ⟨j + 1, Nat.succ_lt_succ hj, hpp, ?_⟩
      rw [hr]
      simp only [SearchResult.mk.injEq]
      exact ⟨rfl, rfl, by omega⟩

/-- Converse: every raw row that passes the guard produces a built row whose
rank is its position offset by the counter plus one. -/
theorem buildResults_mem_of_get {paths : List String} :
    ∀ (out : List (ℚ × ℕ)) (i0 j : ℕ) (hj : j < out.length)
      (hp : (out.get ⟨j, hj⟩).2 < paths.length),
      (⟨paths.get ⟨(out.get ⟨j, hj⟩).2, hp⟩, (out.get ⟨j, hj⟩).1, i0 + j + 1⟩ :
        SearchResult) ∈ buildResults paths i0 out
  | [], _, j, hj, _ => absurd hj (Nat.not_lt_zero j)
  | p :: rest, i0, 0, hj, hp => by
    have hp0 : p.2 < paths.length := hp
    rw [buildResults, dif_pos hp0]
    exact List.mem_cons_self _ _
  | p :: rest, i0, j + 1, hj, hp => by
    have ih := buildResults_mem_of_get rest (i0 + 1) j (Nat.lt_of_succ_lt_succ hj) hp
    have harith : i0 + 1 + j + 1 = i0 + (j + 1) + 1 := by omega
    rw [buildResults]
    by_cases hguard : p.2 < paths.length
    · rw [dif_pos hguard]
      exact List.mem_cons_of_mem _ (harith ▸ ih)
    · rw [dif_neg hguard]
      exact harith ▸ ih

/-- When every raw slot passes the guard, the loop drops nothing. -/
theorem buildResults_length {paths : List String} :
    ∀ (out : List (ℚ × ℕ)) (i0 : ℕ), (∀ p ∈ out, p.2 < paths.length) →
      (buildResults paths i0 out).length = out.length
  | [], _, _ => rfl
  | p :: rest, i0, h => by
    rw [buildResults, dif_pos (h p (List.mem_cons_self p rest))]
    simp only [List.length_cons]
    exact congrArg Nat.succ (buildResults_length rest (i0 + 1)
      (fun x hx => h x (List.mem_cons_of_mem p hx)))

/-- Every built row's rank exceeds the starting counter. -/
theorem buildResults_rank_gt {paths : List String} {out : List (ℚ × ℕ)}
    {i0 : ℕ} {r : SearchResult} (h : r ∈ buildResults paths i0 out) :
    i0 < r.rank := by
  obtain ⟨j, hj, hp, hr⟩ := mem_buildResults h
  subst hr
  show i0 < i0 + j + 1
  omega

/-- The built rows have strictly increasing ranks. -/
theorem buildResults_rank_strict_mono (paths : List String) :
    ∀ (out : List (ℚ × ℕ)) (i0 : ℕ),
      List.Pairwise (fun a b => a.rank < b.rank) (buildResults paths i0 out)
  | [], _ => by simp [buildResults]
  | p :: rest, i0 => by
    rw [buildResults]
    by_cases hp : p.2 < paths.length
    · rw [dif_pos hp]
      refine List.Pairwise.cons ?_ (buildResults_rank_strict_mono paths rest (i0 + 1))
      intro r hr
      exact buildResults_rank_gt hr
    · rw [dif_neg hp]
      exact buildResults_rank_strict_mono paths rest (i0 + 1)

/-- C2: for every non-empty store, query vector and k ≥ 1, the modelled
store search returns exactly min(k, n) rows; each row's score is the inner
product of the query with the stored vector in its slot (all slots in
range); rows are ordered by strictly descending score with equal scores by
ascending slot (first-inserted wins); and no slot left out of the result
ranks better than any returned row. -/
theorem C2_store_search_top_min_k (vecs : List Vec) (q : Vec) (k : ℕ)
    (hn : 0 < vecs.length) (hk : 1 ≤ k) :
    (idx_search vecs q k).length = min k vecs.length ∧
    List.Pairwise rankLT (idx_search vecs q k) ∧
    (∀ p ∈ idx_search vecs q k,
      p.2 < vecs.length ∧ p.1 = dotProd q (vecs.getD p.2 [])) ∧
    (∀ j, j < vecs.length → (∀ p ∈ idx_search vecs q k, p.2 ≠ j) →
      ∀ p ∈ idx_search vecs q k, rankLE p (dotProd q (vecs.getD j []), j)) :=
  ⟨idx_search_length vecs q k, idx_search_sorted_strict vecs q k,
   fun _ hp => mem_idx_search hp,
   fun j hj hnot => idx_search_topk vecs q k j hj hnot⟩

/-- C2 witness: the two-vector store queried with k = 1. -/
theorem C2_witness :
    (idx_search [[1], [0]] [1] 1).length = min 1 2 ∧
    List.Pairwise rankLT (idx_search [[1], [0]] [1] 1) ∧
    (∀ p ∈ idx_search [[1], [0]] [1] 1,
      p.2 < 2 ∧ p.1 = dotProd [1] ([[1], [0]].getD p.2 [])) ∧
    (∀ j, j < 2 → (∀ p ∈ idx_search [[1], [0]] [1] 1, p.2 ≠ j) →
      ∀ p ∈ idx_search [[1], [0]] [1] 1,
        rankLE p (dotProd [1] ([[1], [0]].getD j []), j)) :=
  C2_store_search_top_min_k [[1], [0]] [1] 1 (by decide) (by decide)

/-- C6: on a non-empty store, search_images applies the 0.1 floor after rank
assignment: the returned list is exactly the filter of the pre-filter rows
(records unchanged, ranks kept); each raw row passing the guard yields a
pre-filter row whose rank is its raw position plus one; every pre-filter row
points back at the raw position whose score it carries; and pre-filter ranks
are strictly increasing, so a filtered-out row leaves a gap in the returned
rank sequence. -/
theorem C6_ranks_not_renumbered (st : ServiceState) (q : Vec) (top_k : ℕ)
    (hn : 0 < st.index.length) :
    search_images st (Except.ok q) top_k =
      (preFilter st q top_k).filter (fun r => simFloor < r.similarity) ∧
    (∀ j (hj : j < (searchRows st q top_k).length)
        (hp : ((searchRows st q top_k).get ⟨j, hj⟩).2 < st.image_paths.length),
        (⟨st.image_paths.get ⟨((searchRows st q top_k).get ⟨j, hj⟩).2, hp⟩,
          ((searchRows st q top_k).get ⟨j, hj⟩).1, j + 1⟩ : SearchResult) ∈
          preFilter st q top_k) ∧
    (∀ r ∈ preFilter st q top_k,
      ∃ j, ∃ hj : j < (searchRows st q top_k).length,
        r.rank = j + 1 ∧ r.similarity = ((searchRows st q top_k).get ⟨j, hj⟩).1) ∧
    List.Pairwise (fun a b => a.rank < b.rank) (preFilter st q top_k) := by
  refine ⟨search_images_ok_eq st q top_k hn.ne', ?_, ?_, ?_⟩
  · intro j hj hp
    have h := buildResults_mem_of_get (searchRows st q top_k) 0 j hj hp
    have hz : (0 : ℕ) + j + 1 = j + 1 := by omega
    simp only [preFilter]
    exact hz ▸ h
  · intro r hr
    simp only [preFilter] at hr
    obtain ⟨j, hj, hp, hre⟩ := mem_buildResults hr
    refine ⟨j, hj, ?_, ?_⟩
    · rw [hre]
      show 0 + j + 1 = j + 1
      omega
    · rw [hre]
  · simp only [preFilter]
    exact buildResults_rank_strict_mono st.image_paths (searchRows st q top_k) 0

/-- C6 witness: the two-vector store with identifiers a, b queried by the
first basis vector. -/
theorem C6_witness :
    search_images ⟨[[1], [0]], ["a", "b"]⟩ (Except.ok [1]) 5 =
      (preFilter ⟨[[1], [0]], ["a", "b"]⟩ [1] 5).filter
        (fun r => simFloor < r.similarity) ∧
    (∀ j (hj : j < (searchRows ⟨[[1], [0]], ["a", "b"]⟩ [1] 5).length)
        (hp : ((searchRows ⟨[[1], [0]], ["a", "b"]⟩ [1] 5).get ⟨j, hj⟩).2 <
          (["a", "b"] : List String).length),
        (⟨(["a", "b"] : List String).get
            ⟨((searchRows ⟨[[1], [0]], ["a", "b"]⟩ [1] 5).get ⟨j, hj⟩).2, hp⟩,
          ((searchRows ⟨[[1], [0]], ["a", "b"]⟩ [1] 5).get ⟨j, hj⟩).1, j + 1⟩ :
          SearchResult) ∈ preFilter ⟨[[1], [0]], ["a", "b"]⟩ [1] 5) ∧
    (∀ r ∈ preFilter ⟨[[1], [0]], ["a", "b"]⟩ [1] 5,
      ∃ j, ∃ hj : j < (searchRows ⟨[[1], [0]], ["a", "b"]⟩ [1] 5).length,
        r.rank = j + 1 ∧
        r.similarity = ((searchRows ⟨[[1], [0]], ["a", "b"]⟩ [1] 5).get ⟨j, hj⟩).1) ∧
    List.Pairwise (fun a b => a.rank < b.rank)
      (preFilter ⟨[[1], [0]], ["a", "b"]⟩ [1] 5) :=
  C6_ranks_not_renumbered ⟨[[1], [0]], ["a", "b"]⟩ [1] 5 (by decide)

/-- C10: on an aligned store (identifier-list length equals vector count)
with a non-empty index and top_k ≥ 1: every raw slot lies in [0, count) (the
modelled search is called with k = min(top_k, count), so no sentinel slot
occurs), the guard idx < len(image_paths) drops nothing (the pre-filter rows
are exactly as many as the raw rows), and every returned row's filepath is
the identifier stored for the very slot whose inner-product score the row
carries. -/
theorem C10_guard_never_drops (st : ServiceState) (q : Vec) (top_k : ℕ)
    (hal : st.image_paths.length = st.index.length) (hn : 0 < st.index.length)
    (hk : 1 ≤ top_k) :
    (∀ p ∈ searchRows st q top_k, p.2 < st.index.length) ∧
    (preFilter st q top_k).length = (searchRows st q top_k).length ∧
    (∀ r ∈ search_images st (Except.ok q) top_k,
      ∃ i, ∃ hi : i < st.image_paths.length,
        r.filepath = st.image_paths.get ⟨i, hi⟩ ∧
        r.similarity = dotProd q (st.index.getD i [])) := by
  have hmem : ∀ p ∈ searchRows st q top_k, p.2 < st.index.length := by
    intro p hp
    simp only [searchRows] at hp
    exact (mem_idx_search hp).1
  refine ⟨hmem, ?_, ?_⟩
  · simp only [preFilter]
    exact buildResults_length (searchRows st q top_k) 0
      (fun p hp => hal ▸ hmem p hp)
  · intro r hr
    rw [search_images_ok_eq st q top_k hn.ne'] at hr
    have hpre := (List.mem_filter.mp hr).1
    simp only [preFilter] at hpre
    obtain ⟨j, hj, hp, hre⟩ := mem_buildResults hpre
    have hrow : (searchRows st q top_k).get ⟨j, hj⟩ ∈ searchRows st q top_k :=
      List.get_mem _ _ _
    have hscore := mem_idx_search
      (show (searchRows st q top_k).get ⟨j, hj⟩ ∈
        idx_search st.index q (min top_k st.index.length) from hrow)
    refine ⟨((searchRows st q top_k).get ⟨j, hj⟩).2, hp, ?_, ?_⟩
    · rw [hre]
    · rw [hre]
      exact hscore.2

/-- C10 witness: the aligned two-vector store with identifiers a, b. -/
theorem C10_witness :
    (∀ p ∈ searchRows ⟨[[1], [0]], ["a", "b"]⟩ [1] 3, p.2 < 2) ∧
    (preFilter ⟨[[1], [0]], ["a", "b"]⟩ [1] 3).length =
      (searchRows ⟨[[1], [0]], ["a", "b"]⟩ [1] 3).length ∧
    (∀ r ∈ search_images ⟨[[1], [0]], ["a", "b"]⟩ (Except.ok [1]) 3,
      ∃ i, ∃ hi : i < (["a", "b"] : List String).length,
        r.filepath = (["a", "b"] : List String).get ⟨i, hi⟩ ∧
        r.similarity = dotProd [1] ([[1], [0]].getD i [])) :=
  C10_guard_never_drops ⟨[[1], [0]], ["a", "b"]⟩ [1] 3 rfl (by decide) (by decide)

/-- Both components of the state after a run of ingest calls: the stored
vectors are the initial ones followed by the successfully embedded vectors in
call order, and the identifier list extends by the matching identifiers in
the same order. -/
theorem runOps_spec : ∀ (ops : List IngestOp) (st : ServiceState) (d : Disk),
    (runOps ops (st, d)).1.index = st.index ++ (succPairs ops).map Prod.fst ∧
    (runOps ops (st, d)).1.image_paths =
      st.image_paths ++ (succPairs ops).map Prod.snd
  | [], _, _ => by simp [runOps, succPairs]
  | op :: rest, st, d => by
    cases hop : op.embed with
    | error e =>
      have h := runOps_spec rest st d
      simp only [runOps, process_image, hop, succPairs, List.filterMap_cons] at h ⊢
      simpa [hop, succPairs] using h
    | ok v =>
      have h := runOps_spec rest ⟨st.index ++ [v], st.image_paths ++ [op.path]⟩
        (save_index ⟨st.index ++ [v], st.image_paths ++ [op.path]⟩ d)
      simp only [runOps, process_image, hop, succPairs, List.filterMap_cons] at h ⊢
      simpa [hop, succPairs, List.append_assoc] using h

/-- C1 (amended): after any sequence of ingest calls from any starting state,
the stored vectors are the initial ones followed by the successfully embedded
vectors in call order and the identifier list extends by the matching
identifiers in the same order (so the i-th added vector carries the i-th
added identifier, and nothing is reordered or removed); hence a run started
from a state satisfying the alignment invariant, such as a fresh store, ends
with vector count equal to identifier-list length. After a load of a
parseable but mismatched artifact pair the invariant does not hold. -/
theorem C1_amended_alignment (ops : List IngestOp) (st : ServiceState) (d : Disk) :
    (runOps ops (st, d)).1.index = st.index ++ (succPairs ops).map Prod.fst ∧
    (runOps ops (st, d)).1.image_paths =
      st.image_paths ++ (succPairs ops).map Prod.snd ∧
    (st.index.length = st.image_paths.length →
      (runOps ops (st, d)).1.index.length =
        (runOps ops (st, d)).1.image_paths.length) := by
  refine ⟨(runOps_spec ops st d).1, (runOps_spec ops st d).2, fun h => ?_⟩
  rw [(runOps_spec ops st d).1, (runOps_spec ops st d).2]
  simp [h]

/-- C1 witness: a run of three ingest calls (the middle one failing) from the
fresh store ends aligned. -/
theorem C1_amended_witness :
    (runOps [⟨Except.ok [1], "", "a"⟩, ⟨Except.error "fail", "", "b"⟩,
        ⟨Except.ok [2], "txt", "c"⟩] (⟨[], []⟩, ⟨none, none⟩)).1.index.length =
    (runOps [⟨Except.ok [1], "", "a"⟩, ⟨Except.error "fail", "", "b"⟩,
        ⟨Except.ok [2], "txt", "c"⟩] (⟨[], []⟩, ⟨none, none⟩)).1.image_paths.length :=
  (C1_amended_alignment _ ⟨[], []⟩ ⟨none, none⟩).2.2 rfl

/-- C1 counterexample: load is a completed operation after which the claimed
invariant can fail: loading a parseable pair holding one vector and zero
identifiers yields a store whose vector count (1) differs from its
identifier-list length (0). -/
theorem C1_counterexample :
    ¬ (load_index ⟨some [[3]], some []⟩).index.length =
        (load_index ⟨some [[3]], some []⟩).image_paths.length := by
  decide

/-- C3 counterexample: an artifact pair that both parse, holding two vectors
but one identifier, is loaded as-is: the resulting store has vector count 2
and identifier-list length 1 — a mismatched store, not the fresh empty store
the claim requires. -/
theorem C3_counterexample :
    (load_index ⟨some [[1], [2]], some ["a"]⟩).index.length = 2 ∧
    (load_index ⟨some [[1], [2]], some ["a"]⟩).image_paths.length = 1 :=
  ⟨rfl, rfl⟩

/-- C3 (amended): load_index performs no consistency check: whenever both
artifacts parse it returns exactly the recovered pair, mismatched or not
(and without crashing); only a missing or unparseable artifact yields the
fresh empty store. -/
theorem C3_amended_no_mismatch_check :
    (∀ (vecs : List Vec) (paths : List String),
        load_index ⟨some vecs, some paths⟩ = ⟨vecs, paths⟩) ∧
    (∀ d : Disk, d.index_file = none ∨ d.metadata_file = none →
        load_index d = ⟨[], []⟩) := by
  constructor
  · intro vecs paths; rfl
  · intro d h
    rcases d with ⟨i, m⟩
    cases i <;> cases m <;> simp_all [load_index]

/-- C3 witness: a matched pair loads as-is; a pair with a missing index
artifact loads as the fresh empty store. -/
theorem C3_amended_witness :
    load_index ⟨some [[3]], some ["b"]⟩ = ⟨[[3]], ["b"]⟩ ∧
    load_index ⟨none, some ["b"]⟩ = ⟨[], []⟩ :=
  ⟨C3_amended_no_mismatch_check.1 [[3]] ["b"],
   C3_amended_no_mismatch_check.2 ⟨none, some ["b"]⟩ (Or.inl rfl)⟩

/-- C4: no returned result has similarity at or below the fixed floor 0.1:
every row search_images returns has similarity strictly above 1/10, for
every store state, encoder outcome and top_k. -/
theorem C4_similarity_floor (st : ServiceState) (enc : Except String Vec)
    (top_k : ℕ) (r : SearchResult) (hr : r ∈ search_images st enc top_k) :
    ¬ r.similarity ≤ simFloor := by
  rcases enc with e | q
  · simp [search_images] at hr
  · by_cases h0 : st.index.length = 0
    · simp [search_images, h0] at hr
    · simp only [search_images, if_neg h0] at hr
      exact not_le.mpr (of_decide_eq_true (List.mem_filter.mp hr).2)

/-- C4 witness: the one-vector store queried by its own vector returns that
vector at similarity 1, above the floor. -/
theorem C4_witness : ¬ (SearchResult.mk "a" 1 1).similarity ≤ simFloor :=
  C4_similarity_floor ⟨[[1]], ["a"]⟩ (Except.ok [1]) 5 ⟨"a", 1, 1⟩ (by
    norm_num [search_images, idx_search, scoredSlots, dotProd, buildResults,
      simFloor, rankLE, List.filter])

/-- C5 (amended): failure of the text-encoder collaborator during a query is
caught by the try/except wrapping search_images and yields the empty list
(the error is only logged to stderr), observably identical in return value
to a successful search that matched nothing. -/
theorem C5_amended_encoder_failure_returns_empty
    (st : ServiceState) (e : String) (top_k : ℕ) :
    search_images st (Except.error e) top_k = [] := by
  unfold search_images
  split <;> rfl

/-- C5 counterexample: on a one-vector store, a failing encoder returns the
empty list — exactly the output of a successful search that matched nothing
(the lone score 0 falls below the 0.1 floor). Encoder failure and zero
results are therefore observably identical, contradicting the claim. -/
theorem C5_counterexample :
    (⟨[[1]], ["a"]⟩ : ServiceState).index.length = 1 ∧
    search_images ⟨[[1]], ["a"]⟩ (Except.error "CLIP failure") 5 = [] ∧
    search_images ⟨[[1]], ["a"]⟩ (Except.ok [0]) 5 = [] := by
  refine ⟨rfl, rfl, by
    norm_num [search_images, idx_search, scoredSlots, dotProd, buildResults,
      simFloor, rankLE, List.filter]⟩

/-- C7: when the embedding collaborator fails, process_image returns
success=false carrying the failure description, and state and disk are
returned unchanged: neither the index nor the identifier list is mutated and
no save happens. -/
theorem C7_embed_failure_leaves_store_unchanged
    (st : ServiceState) (d : Disk) (e ocr path : String) :
    process_image st d (Except.error e) ocr path =
      (⟨path, none, none, some e, false⟩, st, d) := rfl

/-- C8: save followed by load reconstructs the same store: identical count,
identical identifiers in identical order, identical vectors in insertion
order (components are modelled exactly, so floating-point tolerance is met
by equality). -/
theorem C8_save_load_round_trip (st : ServiceState) (d : Disk) :
    load_index (save_index st d) = st := rfl

/-- C9: a query against an empty store returns an empty list for every
encoder outcome and every top_k, and no error is signalled; the result does
not depend on the encoder at all (the quantification includes failing
encoders), reflecting that the code returns before consulting it. -/
theorem C9_empty_store_returns_empty
    (st : ServiceState) (enc : Except String Vec) (top_k : ℕ)
    (h : st.index.length = 0) :
    search_images st enc top_k = [] := by
  simp [search_images, h]

/-- C9 witness: the fresh store with a failing encoder still answers the
empty list. -/
theorem C9_witness :
    search_images ⟨[], []⟩ (Except.error "encoder down") 7 = [] :=
  C9_empty_store_returns_empty ⟨[], []⟩ (Except.error "encoder down") 7 rfl

end AIImageService
